import Mathlib

/-!
Verification of the listing normalization and scoring pipeline of
`run.py` (the real estate analysis script).

Embedding conventions:
- The core region modelled here is the pipeline from the DataFrame
  construction (line 200) to the market summary (line 553).  Its input is
  the list of scraped 5-string records (`all_data`) plus the three user
  strings that the core reads (`rooms_input`, `price_input`,
  `location_input`).
- Numeric columns hold IEEE floats in the source; we idealize float
  arithmetic as exact rational arithmetic (`ℚ`) and model a NaN entry as
  `none` in `Option ℚ`.  Pandas reductions (`mean`, `std`, `max`,
  `quantile`) skip NaN entries, which we model by reducing over the list
  of present values.  Comparisons against NaN are false in pandas; the
  corresponding filters treat `none` as failing the predicate.
- The z column divides by the standard deviation, an irrational square
  root of the rational variance v.  Every score value produced by the
  code lies in the real quadratic extension of the rationals by the
  square root of v, so scores are represented exactly as pairs
  `(a, b) : ℚ × ℚ` denoting the real number a + b * sqrt v.  Addition and
  negation are componentwise, matching real addition and negation; the
  rational scores embed with second component 0.
- `df.sort_values` sorts by a float key; the comparison on score pairs
  decides a + b * sqrt v >= c + d * sqrt v by sign analysis and squaring,
  which agrees with the real comparison because v >= 0.  The source uses
  the pandas default quicksort, which fixes no tie order; `insertionSort`
  realizes one admissible output order (descending in the key).
- `pd.Series.str.contains` treats the user district string as a regular
  expression.  For a pattern with no regex metacharacter it is substring
  search, which is what the model implements; theorems that quantify over
  the district input therefore restrict it with `literalPat`.
- Python `str.lower` lowercases Unicode; the model covers the ASCII and
  Cyrillic letters that occur in the data and keyword lists.
-/

/-- One scraped card: the five string columns of the raw DataFrame
(run.py lines 200 to 209). -/
structure RawCard where
  header : String
  price : String
  location : String
  link : String
  combined : String
deriving DecidableEq

/-- A score value a + b * sqrt v in the quadratic extension determined by
the collection variance v. -/
abbrev Pair := ℚ × ℚ

/-- Numeric value of a list of decimal digits. -/
def digitsVal (ds : List Char) : ℕ :=
  ds.foldl (fun a c => 10 * a + (c.toNat - 48)) 0

/-- Match of the tail of the rooms pattern at a digit position: after the
maximal digit run, the regex fragment matches optional whitespace, an
optional hyphen or space, optional whitespace, then the room token.  The
space alternative of the bracket is absorbed by the whitespace stars, so
the language is: whitespace run, optional hyphen, whitespace run. -/
def roomsTry (cs : List Char) : Option ℤ :=
  let ds := cs.takeWhile Char.isDigit
  let r1 := (cs.dropWhile Char.isDigit).dropWhile Char.isWhitespace
  let r2 := match r1 with
    | '-' :: t => t.dropWhile Char.isWhitespace
    | _ => r1
  match r2 with
  | 'к' :: 'о' :: 'м' :: _ => some (digitsVal ds : ℤ)
  | _ => none

/-- Leftmost search for the rooms pattern (run.py lines 220 to 233). -/
def roomsScan : List Char → Option ℤ
  | [] => none
  | c :: rest =>
    if c.isDigit then
      match roomsTry (c :: rest) with
      | some n => some n
      | none => roomsScan rest
    else roomsScan rest

/-- Room count extracted from the header, NaN as none (run.py line 220). -/
def roomsOf (s : String) : Option ℤ :=
  roomsScan s.data

/-- Strip every non-digit character from the price text and parse the
remaining digits; none when no digit remains (run.py lines 282 to 296). -/
def priceCleanOf (s : String) : Option ℚ :=
  let ds := s.data.filter Char.isDigit
  if ds.isEmpty then none else some ((digitsVal ds : ℕ) : ℚ)

/-- Finish the area pattern after the numeric part: one optional
whitespace, a Latin or Cyrillic m, then the superscript two glyph. -/
def sqmFinish (v : ℚ) (r : List Char) : Option ℚ :=
  let r3 := match r with
    | w :: t => if w.isWhitespace then t else r
    | [] => r
  match r3 with
  | u :: '²' :: _ => if u = 'm' ∨ u = 'м' then some v else none
  | _ => none

/-- Match of the area pattern at a digit position: maximal digit run, an
optional decimal point with a maximal digit run, then the unit marker. -/
def sqmTry (cs : List Char) : Option ℚ :=
  let a := cs.takeWhile Char.isDigit
  let r1 := cs.dropWhile Char.isDigit
  match r1 with
  | '.' :: r2 =>
    sqmFinish ((digitsVal a : ℚ) + (digitsVal (r2.takeWhile Char.isDigit) : ℚ) / (10 ^ (r2.takeWhile Char.isDigit).length : ℕ))
      (r2.dropWhile Char.isDigit)
  | _ => sqmFinish (digitsVal a : ℚ) r1

/-- Leftmost search for the area pattern (run.py lines 315 to 329). -/
def sqmScan : List Char → Option ℚ
  | [] => none
  | c :: rest =>
    if c.isDigit then
      match sqmTry (c :: rest) with
      | some v => some v
      | none => sqmScan rest
    else sqmScan rest

/-- Area in square meters extracted from the combined card text, NaN as
none (run.py line 315). -/
def sqmOf (s : String) : Option ℚ :=
  sqmScan s.data

/-- Price per square meter, the division of the price column by the area
column with NaN propagation (run.py line 343). -/
def ppmOf (c : RawCard) : Option ℚ :=
  match priceCleanOf c.price, sqmOf c.combined with
  | some p, some s => some (p / s)
  | _, _ => none

/-- Python int applied to a user string: strip surrounding whitespace,
accept an optional sign followed by a nonempty digit run, otherwise raise
(modelled as none).  Used by the budget conversion (run.py line 76) and
the room filter (run.py line 240). -/
def parseIntPy (s : String) : Option ℤ :=
  let cs := ((s.data.dropWhile Char.isWhitespace).reverse.dropWhile Char.isWhitespace).reverse
  match cs with
  | '+' :: rest =>
    if rest.isEmpty then none
    else if rest.all Char.isDigit then some (digitsVal rest : ℤ) else none
  | '-' :: rest =>
    if rest.isEmpty then none
    else if rest.all Char.isDigit then some (-(digitsVal rest : ℤ)) else none
  | rest =>
    if rest.isEmpty then none
    else if rest.all Char.isDigit then some (digitsVal rest : ℤ) else none

/-- Budget ceiling: the parsed budget input, or 500000000 when parsing
raises (run.py lines 75 to 78). -/
def maxPriceOf (s : String) : ℤ :=
  (parseIntPy s).getD 500000000

/-- Lowercasing covering ASCII letters and the Russian alphabet. -/
def lowerChar (c : Char) : Char :=
  if 'A' ≤ c ∧ c ≤ 'Z' then Char.ofNat (c.toNat + 32)
  else if 'А' ≤ c ∧ c ≤ 'Я' then Char.ofNat (c.toNat + 32)
  else if c = 'Ё' then 'ё'
  else c

/-- Lowercased character list of a string. -/
def lowerStr (s : String) : List Char :=
  s.data.map lowerChar

/-- Substring containment of character lists, the Python in operator. -/
def substr : List Char → List Char → Bool
  | n, [] => n.isEmpty
  | n, c :: t => n.isPrefixOf (c :: t) || substr n t

/-- Pattern with no regex metacharacter: for such district inputs the
pandas str.contains call is plain substring search. -/
def literalPat (s : String) : Bool :=
  s.data.all fun c =>
    !(['.', '^', '$', '*', '+', '?', '\x7b', '\x7d', '[', ']', '(', ')', '|', '\\'].contains c)

/-- Conditional room filter (run.py lines 237 to 241): skipped for an
empty rooms input; otherwise Python int is applied to the input with no
surrounding handler, so an unparsable input raises (none); a parsed
target keeps the rows whose extracted room count equals it, NaN rows
failing the equality. -/
def roomStep (ri : String) (data : List RawCard) : Option (List RawCard) :=
  if ri = "" then some data
  else
    match parseIntPy ri with
    | none => none
    | some t => some (data.filter fun c => decide (roomsOf c.header = some t))

/-- Deduplication by link keeping the first occurrence
(run.py line 249). -/
def dedupGo (seen : List String) : List RawCard → List RawCard
  | [] => []
  | c :: rest =>
    if c.link ∈ seen then dedupGo seen rest
    else c :: dedupGo (c.link :: seen) rest

/-- Deduplication stage (run.py line 249). -/
def dedupByLink (l : List RawCard) : List RawCard :=
  dedupGo [] l

/-- Conditional district filter (run.py lines 263 to 270), modelled for
literal patterns as case-insensitive substring containment. -/
def locationStep (li : String) (l : List RawCard) : List RawCard :=
  if li = "" then l
  else l.filter fun c => substr (lowerStr li) (lowerStr c.location)

/-- Budget predicate: price below the ceiling, NaN failing
(run.py lines 299 to 301). -/
def budgetKeep (mp : ℤ) (c : RawCard) : Bool :=
  match priceCleanOf c.price with
  | some p => decide (p ≤ (mp : ℚ))
  | none => false

/-- Budget filter stage (run.py lines 299 to 301). -/
def budgetStage (mp : ℤ) (l : List RawCard) : List RawCard :=
  l.filter (budgetKeep mp)

/-- Positive area predicate, NaN failing (run.py line 340). -/
def sqmPosKeep (c : RawCard) : Bool :=
  match sqmOf c.combined with
  | some s => decide (0 < s)
  | none => false

/-- Positive area filter stage (run.py line 340). -/
def sqmPosStage (l : List RawCard) : List RawCard :=
  l.filter sqmPosKeep

/-- Sanity floor predicate: price per square meter above 100000, NaN
failing (run.py line 354). -/
def sanityKeep (c : RawCard) : Bool :=
  match ppmOf c with
  | some x => decide (100000 < x)
  | none => false

/-- Sanity floor stage (run.py line 354). -/
def sanityStage (l : List RawCard) : List RawCard :=
  l.filter sanityKeep

/-- The present values of an optional column, in order: pandas
reductions skip NaN. -/
def somes (vs : List (Option ℚ)) : List ℚ :=
  vs.filterMap id

/-- Mean of a column skipping NaN, itself NaN (none) when no value is
present. -/
def meanQ (vs : List (Option ℚ)) : Option ℚ :=
  if (somes vs).isEmpty then none
  else some ((somes vs).sum / ((somes vs).length : ℚ))

/-- Squared sample standard deviation (variance, ddof 1) of a column
skipping NaN; NaN (none) when fewer than two values are present.  The
std of the source is the square root of this value, so std is zero or
NaN exactly when this value is zero or none. -/
def stdSq (vs : List (Option ℚ)) : Option ℚ :=
  if (somes vs).length < 2 then none
  else
    some (((somes vs).map fun x => (x - (somes vs).sum / ((somes vs).length : ℚ)) ^ 2).sum
      / (((somes vs).length : ℚ) - 1))

/-- Maximum of a column skipping NaN, none when no value is present. -/
def maxQ (vs : List (Option ℚ)) : Option ℚ :=
  match somes vs with
  | [] => none
  | x :: xs => some (xs.foldl max x)

/-- Linear-interpolation quantile of a column as pandas computes it:
drop NaN, sort ascending, take position p times (n - 1) and interpolate
between the neighbouring order statistics; NaN (none) on an empty
column (run.py lines 369 and 374). -/
def quantilePandas (p : ℚ) (vs : List (Option ℚ)) : Option ℚ :=
  let xs := List.insertionSort (· ≤ ·) (somes vs)
  if xs.isEmpty then none
  else
    let h : ℚ := p * ((xs.length - 1 : ℕ) : ℚ)
    some (xs.getD (Rat.floor h).toNat 0
      + (h - (Rat.floor h : ℚ)) * (xs.getD (Rat.ceil h).toNat 0 - xs.getD (Rat.floor h).toNat 0))

/-- The IQR fence computed from the collection (run.py lines 369 to 379):
none when the quantiles are NaN, in which case every row comparison is
false. -/
def iqrBounds (l : List RawCard) : Option (ℚ × ℚ) :=
  match quantilePandas (1/4) (l.map ppmOf), quantilePandas (3/4) (l.map ppmOf) with
  | some q1, some q3 => some (q1 - 3/2 * (q3 - q1), q3 + 3/2 * (q3 - q1))
  | _, _ => none

/-- Row predicate of the IQR stage (run.py lines 381 to 384). -/
def iqrKeep (l : List RawCard) (c : RawCard) : Bool :=
  match iqrBounds l, ppmOf c with
  | some (a, b), some x => decide (a ≤ x) && decide (x ≤ b)
  | _, _ => false

/-- IQR outlier rejection stage (run.py lines 369 to 384). -/
def iqrStage (l : List RawCard) : List RawCard :=
  l.filter (iqrKeep l)

/-- Z column value (run.py lines 404 to 415): when the standard
deviation is truthy and not NaN, that is when the variance is a present
nonzero value v, the standardized distance of the row value from the
mean divided by sqrt v, represented as the pair (0, (x - m) / v) since
1 / sqrt v = sqrt v / v; otherwise the scalar 0 assigned to every row. -/
def zVal (sd m x : Option ℚ) : Option Pair :=
  match sd with
  | some v =>
    if v = 0 then some ((0, 0) : Pair)
    else x.bind fun xq => m.map fun mq => ((0, (xq - mq) / v) : Pair)
  | none => some ((0, 0) : Pair)

/-- Liquidity column value (run.py lines 419 to 425): when the maximum
is truthy and not NaN, the relative headroom below the maximum with NaN
propagation; otherwise the scalar 0 assigned to every row. -/
def liqVal (M x : Option ℚ) : Option ℚ :=
  match M with
  | some m =>
    if m = 0 then some 0
    else x.map fun xq => (m - xq) / m
  | none => some 0

/-- Central district keyword list (run.py lines 442 to 449). -/
def centerKeywords : List String :=
  ["Самал", "Достык", "Абая", "Коктем", "Орбита", "Медеу"]

/-- Centrality flag (run.py lines 451 to 456). -/
def centerOf (loc : String) : ℤ :=
  if centerKeywords.any (fun k => substr (lowerStr k) (lowerStr loc)) then 1 else 0

/-- A scored row before the final NaN coercion: the raw card and every
numeric column the source df carries at line 477. -/
structure SRow where
  card : RawCard
  rooms : Option ℚ
  priceClean : Option ℚ
  sqm : Option ℚ
  ppm : Option ℚ
  zs : Option Pair
  underval : Option Pair
  liq : Option ℚ
  center : ℤ
  invest : Option Pair
deriving DecidableEq

/-- Scoring of one row given the column statistics of the current
collection (run.py lines 404 to 477). -/
def scoreRow (m sd M : Option ℚ) (c : RawCard) : SRow where
  card := c
  rooms := (roomsOf c.header).map fun n => (n : ℚ)
  priceClean := priceCleanOf c.price
  sqm := sqmOf c.combined
  ppm := ppmOf c
  zs := zVal sd m (ppmOf c)
  underval := (zVal sd m (ppmOf c)).map fun p => -p
  liq := liqVal M (ppmOf c)
  center := centerOf c.location
  invest := ((zVal sd m (ppmOf c)).map fun p => -p).bind fun uv =>
    (liqVal M (ppmOf c)).map fun lv =>
      uv + ((lv, 0) : Pair) + ((((3 * centerOf c.location : ℤ) : ℚ)), 0)

/-- Scoring stage: the statistics are reductions over the current
collection, then every row is scored (run.py lines 404 to 477). -/
def scoreStage (l : List RawCard) : List SRow :=
  l.map (scoreRow (meanQ (l.map ppmOf)) (stdSq (l.map ppmOf)) (maxQ (l.map ppmOf)))

/-- A row after df.fillna(0): every remaining NaN coerced to 0
(run.py line 479). -/
structure FilledRow where
  card : RawCard
  rooms : ℚ
  priceClean : ℚ
  sqm : ℚ
  ppm : ℚ
  zs : Pair
  underval : Pair
  liq : ℚ
  center : ℤ
  invest : Pair
deriving DecidableEq

/-- The NaN coercion of one row (run.py line 479). -/
def fillRow (r : SRow) : FilledRow :=
  { card := r.card
    rooms := r.rooms.getD 0
    priceClean := r.priceClean.getD 0
    sqm := r.sqm.getD 0
    ppm := r.ppm.getD 0
    zs := r.zs.getD ((0, 0) : Pair)
    underval := r.underval.getD ((0, 0) : Pair)
    liq := r.liq.getD 0
    center := r.center
    invest := r.invest.getD ((0, 0) : Pair) }

/-- Comparison d + e * sqrt v >= 0 decided over the rationals, for
v >= 0: sign analysis plus squaring. -/
def geRoot (v d e : ℚ) : Bool :=
  if 0 ≤ e then decide (0 ≤ d) || decide (d ^ 2 ≤ e ^ 2 * v)
  else decide (0 ≤ d) && decide (e ^ 2 * v ≤ d ^ 2)

/-- Score comparison: a.1 + a.2 sqrt v >= b.1 + b.2 sqrt v. -/
def invGe (v : ℚ) (a b : Pair) : Bool :=
  geRoot v (a.1 - b.1) (a.2 - b.2)

/-- Descending sort by investment score (run.py lines 483 to 486).  The
source uses the pandas default quicksort; this realizes one admissible
output order. -/
def sortStage (v : ℚ) (rows : List FilledRow) : List FilledRow :=
  List.insertionSort (fun a b => invGe v a.invest b.invest = true) rows

/-- Mean of a filled (NaN-free) column: NaN (none) exactly on an empty
collection. -/
def meanL (l : List ℚ) : Option ℚ :=
  if l.isEmpty then none else some (l.sum / (l.length : ℚ))

/-- The market summary aggregates: mean price, mean area, mean price per
square meter over the final collection (run.py lines 545 to 547).  A
none is printed as nan by the format calls, not as zero. -/
def summaryOf (rows : List FilledRow) : Option ℚ × Option ℚ × Option ℚ :=
  (meanL (rows.map FilledRow.priceClean), meanL (rows.map FilledRow.sqm),
    meanL (rows.map FilledRow.ppm))

/-- Outcome of the core: early stop with the no-listings message and no
summary (run.py lines 212 to 215), an uncaught ValueError from the room
filter (run.py line 240), or the final report: ranked rows, summary
aggregates, and the top minimum-of-5 rows (run.py lines 483 to 568). -/
inductive PipeResult where
  | noListings : PipeResult
  | exn : PipeResult
  | report : List FilledRow → Option ℚ × Option ℚ × Option ℚ → List FilledRow → PipeResult
deriving DecidableEq

/-- The filter chain after the room filter: deduplication, district,
budget, positive area, sanity floor, IQR rejection
(run.py lines 249 to 384). -/
def filteredSet (li : String) (mp : ℤ) (d1 : List RawCard) : List RawCard :=
  iqrStage (sanityStage (sqmPosStage (budgetStage mp (locationStep li (dedupByLink d1)))))

/-- The final ranked collection: score, coerce NaN to 0, sort descending
by investment score (run.py lines 404 to 486). -/
def finalRows (li : String) (mp : ℤ) (d1 : List RawCard) : List FilledRow :=
  sortStage ((stdSq ((filteredSet li mp d1).map ppmOf)).getD 0)
    ((scoreStage (filteredSet li mp d1)).map fillRow)

/-- The core pipeline (run.py lines 200 to 568): empty check, room
filter with the unguarded int conversion, filter chain, scoring, NaN
coercion, ranking, summary and top rows. -/
def runCore (ri pi li : String) (data : List RawCard) : PipeResult :=
  if data.isEmpty then .noListings
  else
    match roomStep ri data with
    | none => .exn
    | some d1 =>
      .report (finalRows li (maxPriceOf pi) d1)
        (summaryOf (finalRows li (maxPriceOf pi) d1))
        ((finalRows li (maxPriceOf pi) d1).take (min 5 (finalRows li (maxPriceOf pi) d1).length))

/-- A card whose area text is one square meter, so its price per area
equals its parsed price. -/
def mkCard (pr lnk : String) : RawCard :=
  { header := "h", price := pr, location := "loc", link := lnk, combined := "1 м²" }

def cardW : RawCard :=
  { header := "2-ком квартира", price := "40000000", location := "Самал-2", link := "w",
    combined := "100 м²" }

def rowW : FilledRow :=
  { card := cardW, rooms := 2, priceClean := 40000000, sqm := 100, ppm := 400000,
    zs := (0, 0), underval := (0, 0), liq := 0, center := 1, invest := (3, 0) }

/-- Two-listing post-filter collection with price-per-area values 200000
and 400000. -/
def exPair : List RawCard :=
  [mkCard "200000" "a", mkCard "400000" "b"]

/-- Ten-listing collection with price-per-area values 200000 (seven
copies), 300000, 310000 and 800000. -/
def exTen : List RawCard :=
  [mkCard "200000" "t1", mkCard "200000" "t2", mkCard "200000" "t3", mkCard "200000" "t4",
   mkCard "200000" "t5", mkCard "200000" "t6", mkCard "200000" "t7", mkCard "300000" "t8",
   mkCard "310000" "t9", mkCard "800000" "t10"]

/-- Two-listing collection with the same price-per-area value twice. -/
def exSame : List RawCard :=
  [mkCard "200000" "s1", mkCard "200000" "s2"]

/-- Card whose price per area is exactly the sanity threshold, so the
sanity floor removes it and the collection ends empty. -/
def cardZ : RawCard :=
  mkCard "100000" "z"

/-- Card with a price above the default budget ceiling. -/
def cardX : RawCard :=
  mkCard "600000000" "x"

/-- Arbitrary card used to reach the room filter. -/
def cardY : RawCard :=
  { header := "a", price := "b", location := "c", link := "d", combined := "e" }

/-! ## Helper lemmas -/

lemma mem_somes {x : ℚ} {vs : List (Option ℚ)} : x ∈ somes vs ↔ some x ∈ vs := by
  simp [somes, List.mem_filterMap]

lemma le_foldl_max (xs : List ℚ) (a : ℚ) : a ≤ xs.foldl max a := by
  induction xs generalizing a with
  | nil => simp
  | cons y ys ih => exact le_trans (le_max_left a y) (ih (max a y))

lemma mem_le_foldl_max (xs : List ℚ) (a x : ℚ) (hx : x ∈ xs) : x ≤ xs.foldl max a := by
  induction xs generalizing a with
  | nil => cases hx
  | cons y ys ih =>
    rcases List.mem_cons.1 hx with rfl | h
    · exact le_trans (le_max_right a x) (le_foldl_max ys (max a x))
    · exact ih (max a y) h

lemma foldl_max_mem (xs : List ℚ) (a : ℚ) : xs.foldl max a = a ∨ xs.foldl max a ∈ xs := by
  induction xs generalizing a with
  | nil => exact Or.inl rfl
  | cons y ys ih =>
    rcases ih (max a y) with h | h
    · rcases le_total a y with hay | hya
      · right
        rw [List.foldl_cons, h, max_eq_right hay]
        exact List.mem_cons_self y ys
      · left
        rw [List.foldl_cons, h, max_eq_left hya]
    · right
      exact List.mem_cons_of_mem y h

lemma maxQ_spec {vs : List (Option ℚ)} {M : ℚ} (h : maxQ vs = some M) :
    M ∈ somes vs ∧ ∀ x ∈ somes vs, x ≤ M := by
  unfold maxQ at h
  cases hs : somes vs with
  | nil => rw [hs] at h; cases h
  | cons y ys =>
    rw [hs] at h
    injection h with h
    subst h
    constructor
    · rcases foldl_max_mem ys y with h1 | h1
      · rw [h1]; exact List.mem_cons_self y ys
      · exact List.mem_cons_of_mem y h1
    · intro x hx
      rcases List.mem_cons.1 hx with rfl | hx2
      · exact le_foldl_max ys x
      · exact mem_le_foldl_max ys y x hx2

lemma maxQ_isSome {vs : List (Option ℚ)} (h : somes vs ≠ []) : ∃ M, maxQ vs = some M := by
  unfold maxQ
  cases hs : somes vs with
  | nil => exact absurd hs h
  | cons y ys => exact ⟨ys.foldl max y, rfl⟩

lemma sum_zero_of_nonneg (l : List ℚ) (h0 : ∀ x ∈ l, 0 ≤ x) (hs : l.sum = 0) :
    ∀ x ∈ l, x = 0 := by
  induction l with
  | nil => intro x hx; cases hx
  | cons y ys ih =>
    have hy : 0 ≤ y := h0 y (List.mem_cons_self y ys)
    have hys : 0 ≤ ys.sum := List.sum_nonneg fun x hx => h0 x (List.mem_cons_of_mem y hx)
    have hsum : y + ys.sum = 0 := by simpa using hs
    have hy0 : y = 0 := le_antisymm (by linarith) hy
    have hrest : ys.sum = 0 := by linarith
    intro x hx
    rcases List.mem_cons.1 hx with rfl | hx2
    · exact hy0
    · exact ih (fun z hz => h0 z (List.mem_cons_of_mem y hz)) hrest x hx2

lemma stdSq_none_of_short {vs : List (Option ℚ)} (h : (somes vs).length < 2) :
    stdSq vs = none := by
  unfold stdSq
  rw [if_pos h]

lemma stdSq_some_len {vs : List (Option ℚ)} {v : ℚ} (h : stdSq vs = some v) :
    2 ≤ (somes vs).length := by
  unfold stdSq at h
  by_cases hl : (somes vs).length < 2
  · rw [if_pos hl] at h; cases h
  · exact le_of_not_lt hl

lemma stdSq_some_mean {vs : List (Option ℚ)} {v : ℚ} (h : stdSq vs = some v) :
    meanQ vs = some ((somes vs).sum / ((somes vs).length : ℚ)) := by
  have hlen := stdSq_some_len h
  unfold meanQ
  rw [if_neg]
  intro he
  rw [List.isEmpty_iff] at he
  rw [he] at hlen
  simp at hlen

lemma stdSq_zero_all_eq {vs : List (Option ℚ)} (h : stdSq vs = some 0) :
    ∀ x ∈ somes vs, x = (somes vs).sum / ((somes vs).length : ℚ) := by
  have hlen := stdSq_some_len h
  unfold stdSq at h
  rw [if_neg (not_lt.2 hlen)] at h
  injection h with h
  have hden : ((somes vs).length : ℚ) - 1 ≠ 0 := by
    have : (2 : ℚ) ≤ ((somes vs).length : ℚ) := by exact_mod_cast hlen
    linarith
  have hsum : ((somes vs).map fun x => (x - (somes vs).sum / ((somes vs).length : ℚ)) ^ 2).sum = 0 :=
    by
      rcases div_eq_zero_iff.1 h with h1 | h1
      · exact h1
      · exact absurd h1 hden
  intro x hx
  have hmem : (x - (somes vs).sum / ((somes vs).length : ℚ)) ^ 2
      ∈ (somes vs).map fun x => (x - (somes vs).sum / ((somes vs).length : ℚ)) ^ 2 :=
    List.mem_map_of_mem _ hx
  have hz := sum_zero_of_nonneg _ (by
    intro y hy
    rw [List.mem_map] at hy
    obtain ⟨a, _, rfl⟩ := hy
    positivity) hsum _ hmem
  have := pow_eq_zero_iff (n := 2) (by norm_num) |>.1 hz
  linarith [sub_eq_zero.1 this]

lemma eq_of_len_le_one {α : Type} {l : List α} (h : l.length ≤ 1) {x y : α}
    (hx : x ∈ l) (hy : y ∈ l) : x = y := by
  cases l with
  | nil => cases hx
  | cons a t =>
    cases t with
    | nil =>
      rw [List.mem_singleton] at hx hy
      rw [hx, hy]
    | cons b t2 => simp at h

lemma sanityKeep_iff {c : RawCard} :
    sanityKeep c = true ↔ ∃ q, ppmOf c = some q ∧ 100000 < q := by
  unfold sanityKeep
  cases hp : ppmOf c with
  | none => simp
  | some x => simp

lemma mem_sanityStage {l : List RawCard} {c : RawCard} (h : c ∈ sanityStage l) :
    ∃ q, ppmOf c = some q ∧ 100000 < q :=
  sanityKeep_iff.1 (List.mem_filter.1 h).2

lemma mem_iqrStage {l : List RawCard} {c : RawCard} (h : c ∈ iqrStage l) : c ∈ l :=
  (List.mem_filter.1 h).1

lemma filteredSet_ppm {li : String} {mp : ℤ} {d1 : List RawCard} {c : RawCard}
    (hc : c ∈ filteredSet li mp d1) : ∃ q, ppmOf c = some q ∧ 100000 < q :=
  mem_sanityStage (mem_iqrStage hc)

lemma stdSq_none_len {vs : List (Option ℚ)} (h : stdSq vs = none) :
    (somes vs).length < 2 := by
  by_contra hl
  unfold stdSq at h
  rw [if_neg hl] at h
  cases h

lemma somes_len_le (vs : List (Option ℚ)) : (somes vs).length ≤ vs.length :=
  List.length_filterMap_le id vs

lemma score_invariant (l : List RawCard) (hP : ∀ c ∈ l, ∃ q, ppmOf c = some q) :
    ∀ sr ∈ scoreStage l, ∃ u lq, sr.underval = some u ∧ sr.liq = some lq ∧
      sr.invest = some (u + ((lq, 0) : Pair) + (((3 * sr.center : ℤ) : ℚ), 0)) := by
  intro sr hsr
  unfold scoreStage at hsr
  rw [List.mem_map] at hsr
  obtain ⟨c, hc, rfl⟩ := hsr
  obtain ⟨x, hx⟩ := hP c hc
  have hz : ∃ zp, zVal (stdSq (l.map ppmOf)) (meanQ (l.map ppmOf)) (ppmOf c) = some zp := by
    unfold zVal
    cases hv : stdSq (l.map ppmOf) with
    | none => exact ⟨((0, 0) : Pair), rfl⟩
    | some v =>
      by_cases hv0 : v = 0
      · exact ⟨((0, 0) : Pair), by simp [hv0]⟩
      · obtain ⟨mq, hm⟩ : ∃ mq, meanQ (l.map ppmOf) = some mq := ⟨_, stdSq_some_mean hv⟩
        exact ⟨((0, (x - mq) / v) : Pair), by simp [hv0, hx, hm]⟩
  obtain ⟨zp, hzp⟩ := hz
  have hlq : ∃ lq, liqVal (maxQ (l.map ppmOf)) (ppmOf c) = some lq := by
    unfold liqVal
    cases hM : maxQ (l.map ppmOf) with
    | none => exact ⟨0, rfl⟩
    | some M =>
      by_cases hM0 : M = 0
      · exact ⟨0, by simp [hM0]⟩
      · exact ⟨(M - x) / M, by simp [hM0, hx]⟩
  obtain ⟨lq, hlqe⟩ := hlq
  exact ⟨-zp, lq, by simp [scoreRow, hzp], by simp [scoreRow, hlqe],
    by simp [scoreRow, hzp, hlqe]⟩

lemma mem_finalRows {li : String} {mp : ℤ} {d1 : List RawCard} {r : FilledRow}
    (h : r ∈ finalRows li mp d1) :
    ∃ sr ∈ scoreStage (filteredSet li mp d1), r = fillRow sr := by
  unfold finalRows sortStage at h
  rw [(List.perm_insertionSort _ _).mem_iff, List.mem_map] at h
  obtain ⟨sr, hsr, he⟩ := h
  exact ⟨sr, hsr, he.symm⟩

lemma runCore_report {ri pi li : String} {data : List RawCard} {rows : List FilledRow}
    {s : Option ℚ × Option ℚ × Option ℚ} {t : List FilledRow}
    (h : runCore ri pi li data = .report rows s t) :
    ∃ d1, roomStep ri data = some d1 ∧ rows = finalRows li (maxPriceOf pi) d1 ∧
      s = summaryOf rows := by
  unfold runCore at h
  by_cases hd : data.isEmpty
  · rw [if_pos hd] at h; cases h
  · rw [if_neg hd] at h
    cases hr : roomStep ri data with
    | none => rw [hr] at h; cases h
    | some d1 =>
      rw [hr] at h
      injection h with h1 h2 h3
      exact ⟨d1, rfl, h1.symm, by rw [← h2, ← h1]⟩

lemma ratFloorZero : Rat.floor 0 = 0 := by decide

lemma ratCeilZero : Rat.ceil 0 = 0 := by decide

lemma quantilePandas_single (p q : ℚ) : quantilePandas p [some q] = some q := by
  have hs : somes [some q] = [q] := rfl
  have hsor : List.insertionSort (fun a b => a ≤ b) [q] = [q] := rfl
  unfold quantilePandas
  rw [hs, hsor]
  norm_num [ratFloorZero, ratCeilZero]

lemma scored_liq (l : List RawCard) (hne : l ≠ [])
    (hinv : ∀ c ∈ l, ∃ q, ppmOf c = some q ∧ 100000 < q) :
    ∃ M, maxQ (l.map ppmOf) = some M ∧ 100000 < M ∧
      ∀ sr ∈ scoreStage l, ∃ x, ppmOf sr.card = some x ∧ sr.ppm = some x ∧
        100000 < x ∧ x ≤ M ∧ sr.liq = some ((M - x) / M) := by
  obtain ⟨c0, hc0⟩ : ∃ c, c ∈ l := by
    cases l with
    | nil => exact absurd rfl hne
    | cons a t => exact ⟨a, List.mem_cons_self a t⟩
  obtain ⟨q0, hq0, _⟩ := hinv c0 hc0
  have hq0mem : q0 ∈ somes (l.map ppmOf) :=
    mem_somes.2 (List.mem_map.2 ⟨c0, hc0, hq0⟩)
  obtain ⟨M, hM⟩ := maxQ_isSome (List.ne_nil_of_mem hq0mem)
  have hspec := maxQ_spec hM
  obtain ⟨cM, hcM, hcMppm⟩ : ∃ c ∈ l, ppmOf c = some M := by
    have h1 := hspec.1
    rw [mem_somes, List.mem_map] at h1
    exact h1
  have hMgt : 100000 < M := by
    obtain ⟨qM, hqM, hqMgt⟩ := hinv cM hcM
    rw [hcMppm] at hqM
    injection hqM with e
    rw [e]
    exact hqMgt
  have hM0 : M ≠ 0 := by positivity
  refine ⟨M, hM, hMgt, ?_⟩
  intro sr hsr
  unfold scoreStage at hsr
  rw [List.mem_map] at hsr
  obtain ⟨c, hc, rfl⟩ := hsr
  obtain ⟨x, hx, hxgt⟩ := hinv c hc
  have hxle : x ≤ M :=
    hspec.2 x (mem_somes.2 (List.mem_map.2 ⟨c, hc, hx⟩))
  refine ⟨x, ?_, ?_, hxgt, hxle, ?_⟩
  · simpa [scoreRow] using hx
  · simpa [scoreRow] using hx
  · simp [scoreRow, liqVal, hM, hM0, hx]

/-! ## Claim theorems -/

/-- Claim C1 (amended): over every non-empty post-filter collection
(price per area present and above the sanity floor for every listing),
every liquidity score lies in the interval from 0 inclusive to 1
exclusive, hence within the interval 0 to 1; a listing attaining the
maximum price per area has liquidity score exactly 0; and a listing
attaining the minimum price per area has liquidity score
(max - min) / max, which is strictly below 1 because the minimum is
positive.  The original claim gave the minimum-price listing the value
exactly 1, which only holds for a zero minimum. -/
theorem c1_liquidity_bounds (l : List RawCard) (hne : l ≠ [])
    (hinv : ∀ c ∈ l, ∃ q, ppmOf c = some q ∧ 100000 < q) :
    ∃ M, maxQ (l.map ppmOf) = some M ∧
      (∀ sr ∈ scoreStage l, ∃ q, sr.liq = some q ∧ 0 ≤ q ∧ q < 1) ∧
      (∀ sr ∈ scoreStage l, sr.ppm = some M → sr.liq = some 0) ∧
      (∀ sr ∈ scoreStage l, ∀ x, sr.ppm = some x →
        (∀ c ∈ l, ∀ y, ppmOf c = some y → x ≤ y) →
        sr.liq = some ((M - x) / M) ∧ (M - x) / M < 1) := by
  obtain ⟨M, hM, hMgt, hall⟩ := scored_liq l hne hinv
  have hMpos : 0 < M := lt_trans (by norm_num) hMgt
  refine ⟨M, hM, ?_, ?_, ?_⟩
  · intro sr hsr
    obtain ⟨x, _, _, hxgt, hxle, hliq⟩ := hall sr hsr
    exact ⟨(M - x) / M, hliq, div_nonneg (by linarith) (le_of_lt hMpos),
      (div_lt_one hMpos).2 (by linarith)⟩
  · intro sr hsr hppm
    obtain ⟨x, _, hxppm, _, _, hliq⟩ := hall sr hsr
    rw [hxppm] at hppm
    injection hppm with e
    rw [hliq, e]
    simp
  · intro sr hsr x hppm hmin
    obtain ⟨x2, _, hxppm, hxgt, hxle, hliq⟩ := hall sr hsr
    rw [hxppm] at hppm
    injection hppm with e
    constructor
    · rw [hliq, e]
    · rw [← e]
      exact (div_lt_one hMpos).2 (by linarith)

/-- Claim C2 (amended): the IQR outlier-rejection stage is contractive
on its own output: a second application yields a sublist of the first
result, it can only remove listings, never restore any.  It is not
idempotent: the counterexample shows a collection where the second
application removes further listings. -/
theorem c2_iqr_contractive (l : List RawCard) :
    List.Sublist (iqrStage (iqrStage l)) (iqrStage l) :=
  show List.Sublist ((iqrStage l).filter (iqrKeep (iqrStage l))) (iqrStage l) from
    List.filter_sublist (iqrStage l)

/-- Claim C3 (amended): on an empty raw collection the core stops early
with the no-listings message, producing no summary at all; and whenever
the core completes with an empty final collection, the three summary
aggregates are undefined (NaN, printed as nan), not zero. -/
theorem c3_empty_behaviour :
    (∀ ri pi li, runCore ri pi li [] = PipeResult.noListings) ∧
    (∀ ri pi li data rows s t, runCore ri pi li data = PipeResult.report rows s t →
      rows = [] → s = (none, none, none)) := by
  constructor
  · intro ri pi li
    rfl
  · intro ri pi li data rows s t h hrows
    obtain ⟨d1, _, _, hs⟩ := runCore_report h
    rw [hs, hrows]
    rfl

/-- Claim C4 (amended): when the budget input does not parse as an
integer (including the empty input), the ceiling defaults to the fixed
constant 500000000, not to an unlimited value: the filter keeps exactly
the listings whose present price is at most 500000000, and listings with
an absent price are excluded. -/
theorem c4_budget_default (s : String) (hs : parseIntPy s = none)
    (l : List RawCard) (c : RawCard) :
    c ∈ budgetStage (maxPriceOf s) l ↔
      c ∈ l ∧ ∃ p, priceCleanOf c.price = some p ∧ p ≤ 500000000 := by
  have hmp : maxPriceOf s = 500000000 := by rw [maxPriceOf, hs]; rfl
  rw [hmp, budgetStage, List.mem_filter]
  constructor
  · rintro ⟨hl, hk⟩
    refine ⟨hl, ?_⟩
    unfold budgetKeep at hk
    cases hp : priceCleanOf c.price with
    | none => rw [hp] at hk; cases hk
    | some p =>
      rw [hp] at hk
      refine ⟨p, rfl, ?_⟩
      have h2 : p ≤ ((500000000 : ℤ) : ℚ) := of_decide_eq_true (by simpa using hk)
      exact_mod_cast h2
  · rintro ⟨hl, p, hp, hle⟩
    refine ⟨hl, ?_⟩
    unfold budgetKeep
    rw [hp]
    simp only [decide_eq_true_eq]
    exact_mod_cast hle

/-- Claim C6: for every row of the final report collection, the
investment score equals the undervaluation score plus the liquidity
score plus three times the centrality flag, exactly, in the score
representation, and this survives the final NaN coercion because no
score column of a surviving row is NaN. -/
theorem c6_sum_invariant (ri pi li : String) (data : List RawCard)
    (rows : List FilledRow) (s : Option ℚ × Option ℚ × Option ℚ) (t : List FilledRow)
    (hli : literalPat li = true)
    (h : runCore ri pi li data = PipeResult.report rows s t) :
    ∀ r ∈ rows, r.invest = r.underval + ((r.liq, 0) : Pair) + (((3 * r.center : ℤ) : ℚ), 0) := by
  obtain ⟨d1, _, hrows, _⟩ := runCore_report h
  intro r hr
  rw [hrows] at hr
  obtain ⟨sr, hsr, rfl⟩ := mem_finalRows hr
  have hP : ∀ c ∈ filteredSet li (maxPriceOf pi) d1, ∃ q, ppmOf c = some q := by
    intro c hc
    obtain ⟨q, hq, _⟩ := filteredSet_ppm hc
    exact ⟨q, hq⟩
  obtain ⟨u, lq, hu, hlq, hinv⟩ := score_invariant _ hP sr hsr
  simp [fillRow, hu, hlq, hinv]

/-- Claim C7: whenever the variance of the price-per-area column is NaN
or zero, or the collection has fewer than two rows, every scored row
ends with undervaluation score 0 and liquidity score 0 after the NaN
coercion, with no division by zero and no NaN in the output. -/
theorem c7_degenerate (l : List RawCard)
    (hdeg : stdSq (l.map ppmOf) = none ∨ stdSq (l.map ppmOf) = some 0 ∨ l.length < 2) :
    ∀ sr ∈ scoreStage l, (fillRow sr).underval = ((0, 0) : Pair) ∧ (fillRow sr).liq = 0 := by
  have hdeg2 : stdSq (l.map ppmOf) = none ∨ stdSq (l.map ppmOf) = some 0 := by
    rcases hdeg with h | h | h
    · exact Or.inl h
    · exact Or.inr h
    · refine Or.inl (stdSq_none_of_short ?_)
      calc (somes (l.map ppmOf)).length ≤ (l.map ppmOf).length := somes_len_le _
        _ = l.length := List.length_map _ _
        _ < 2 := h
  intro sr hsr
  unfold scoreStage at hsr
  rw [List.mem_map] at hsr
  obtain ⟨c, hc, rfl⟩ := hsr
  have hz : zVal (stdSq (l.map ppmOf)) (meanQ (l.map ppmOf)) (ppmOf c) = some ((0, 0) : Pair) := by
    rcases hdeg2 with h | h <;> simp [zVal, h]
  constructor
  · simp [fillRow, scoreRow, hz]
  · cases hM : maxQ (l.map ppmOf) with
    | none => simp [fillRow, scoreRow, liqVal, hM]
    | some M =>
      by_cases hM0 : M = 0
      · simp [fillRow, scoreRow, liqVal, hM, hM0]
      · cases hx : ppmOf c with
        | none => simp [fillRow, scoreRow, liqVal, hM, hM0, hx]
        | some x =>
          have hxmem : x ∈ somes (l.map ppmOf) :=
            mem_somes.2 (List.mem_map.2 ⟨c, hc, hx⟩)
          have hMmem : M ∈ somes (l.map ppmOf) := (maxQ_spec hM).1
          have hxM : x = M := by
            rcases hdeg2 with h | h
            · have hlen := stdSq_none_len h
              exact eq_of_len_le_one (by omega) hxmem hMmem
            · rw [stdSq_zero_all_eq h x hxmem, stdSq_zero_all_eq h M hMmem]
          subst hxM
          simp [fillRow, scoreRow, liqVal, hM, hM0, hx]

/-- Claim C8: a collection with fewer than two rows passes the IQR stage
unchanged: on the empty collection the filter keeps nothing of nothing,
and on a single row the quantiles both equal the row value, the fence
degenerates to that point, and the row survives. -/
theorem c8_iqr_small (l : List RawCard) (hlen : l.length < 2)
    (hsome : ∀ c ∈ l, (ppmOf c).isSome) : iqrStage l = l := by
  cases l with
  | nil => rfl
  | cons c t =>
    cases t with
    | cons d t2 =>
      exfalso
      simp only [List.length_cons] at hlen
      omega
    | nil =>
      obtain ⟨q, hq⟩ := Option.isSome_iff_exists.1 (hsome c (List.mem_singleton_self c))
      have hmap : [c].map ppmOf = [some q] := by simp [hq]
      have hb : iqrBounds [c] = some (q - 3/2 * (q - q), q + 3/2 * (q - q)) := by
        unfold iqrBounds
        rw [hmap, quantilePandas_single, quantilePandas_single]
      have hk : iqrKeep [c] c = true := by
        unfold iqrKeep
        rw [hb, hq]
        have e1 : q - 3/2 * (q - q) ≤ q := le_of_eq (by ring)
        have e2 : q ≤ q + 3/2 * (q - q) := le_of_eq (by ring)
        simp [e1, e2]
      unfold iqrStage
      simp [List.filter, hk]

/-- Claim C9 (amended): provided the rooms input is empty or parses as
an integer, and the district input is a literal pattern, no uncaught
error is produced by the core on any raw input, including the empty
collection and collections in which every field fails to parse.  The
original claim is refuted by an unparsable rooms input, on which the
room filter applies the Python int conversion with no handler. -/
theorem c9_no_uncaught (ri pi li : String) (data : List RawCard)
    (hli : literalPat li = true)
    (hri : ri = "" ∨ (parseIntPy ri).isSome) :
    runCore ri pi li data ≠ PipeResult.exn := by
  unfold runCore
  by_cases hd : data.isEmpty
  · rw [if_pos hd]
    intro h
    cases h
  · rw [if_neg hd]
    have hstep : ∃ d1, roomStep ri data = some d1 := by
      unfold roomStep
      by_cases hempty : ri = ""
      · rw [if_pos hempty]
        exact ⟨data, rfl⟩
      · rw [if_neg hempty]
        rcases hri with rfl | hsome
        · exact absurd rfl hempty
        · obtain ⟨tgt, ht⟩ := Option.isSome_iff_exists.1 hsome
          rw [ht]
          exact ⟨_, rfl⟩
    obtain ⟨d1, hd1⟩ := hstep
    rw [hd1]
    intro h
    cases h

/-- Claim C10: every listing surviving the sanity floor has a present
price per area strictly above 100000; consequently, over any non-empty
collection with that invariant the maximum price per area is a present
positive value, the liquidity column is computed by the division branch
for every row (the zero fallback is unreachable), and every liquidity
score is strictly below 1. -/
theorem c10_sanity_liquidity :
    (∀ l : List RawCard, ∀ c ∈ sanityStage (sqmPosStage l),
      ∃ q, ppmOf c = some q ∧ 100000 < q) ∧
    (∀ l : List RawCard, l ≠ [] → (∀ c ∈ l, ∃ q, ppmOf c = some q ∧ 100000 < q) →
      ∃ M, maxQ (l.map ppmOf) = some M ∧ 0 < M ∧
        (∀ sr ∈ scoreStage l, sr.liq = (ppmOf sr.card).map fun x => (M - x) / M) ∧
        (∀ sr ∈ scoreStage l, ∀ q, sr.liq = some q → q < 1)) := by
  constructor
  · intro l c hc
    exact mem_sanityStage hc
  · intro l hne hinv
    obtain ⟨M, hM, hMgt, hall⟩ := scored_liq l hne hinv
    have hMpos : 0 < M := lt_trans (by norm_num) hMgt
    refine ⟨M, hM, hMpos, ?_, ?_⟩
    · intro sr hsr
      obtain ⟨x, hxc, _, _, _, hliq⟩ := hall sr hsr
      rw [hxc, hliq]
      rfl
    · intro sr hsr q hq
      obtain ⟨x, _, _, hxgt, hxle, hliq⟩ := hall sr hsr
      rw [hliq] at hq
      injection hq with e
      rw [← e]
      exact (div_lt_one hMpos).2 (by linarith)

/-! ## Witnesses and counterexamples

The Batteries rational operations are sealed against unfolding; inside
this section they are made semireducible again so that closed facts
about concrete pipeline runs evaluate. -/

section

attribute [local semireducible] Rat.add Rat.mul Rat.inv Rat.sub Rat.ofScientific

/-- Claim C1 counterexample: a two-listing post-filter collection with
price-per-area values 200000 and 400000; the minimum-price listing has
liquidity score one half, not exactly 1 as the claim states. -/
theorem c1_min_liq_counterexample :
    exPair ≠ [] ∧ exPair.map ppmOf = [some 200000, some 400000] ∧
      (100000 : ℚ) < 200000 ∧ (200000 : ℚ) ≤ 400000 ∧
      (scoreStage exPair).map SRow.liq = [some (1/2), some 0] ∧ ((1 : ℚ)/2) ≠ 1 := by
  decide

/-- Claim C1 witness: the amended statement applied to the concrete
two-listing collection. -/
theorem c1_liquidity_bounds_witness :
    ∃ M, maxQ (exPair.map ppmOf) = some M ∧
      (∀ sr ∈ scoreStage exPair, ∃ q, sr.liq = some q ∧ 0 ≤ q ∧ q < 1) ∧
      (∀ sr ∈ scoreStage exPair, sr.ppm = some M → sr.liq = some 0) ∧
      (∀ sr ∈ scoreStage exPair, ∀ x, sr.ppm = some x →
        (∀ c ∈ exPair, ∀ y, ppmOf c = some y → x ≤ y) →
        sr.liq = some ((M - x) / M) ∧ (M - x) / M < 1) :=
  c1_liquidity_bounds exPair (by decide)
    (by
      intro c hc
      rcases List.mem_cons.1 hc with rfl | hc2
      · exact ⟨200000, by decide, by decide⟩
      · rcases List.mem_cons.1 hc2 with rfl | hc3
        · exact ⟨400000, by decide, by decide⟩
        · cases hc3)

/-- Claim C2 counterexample: on the ten-listing collection the first
IQR application removes one listing (the 800000 outlier), and the
second application removes two more (300000 and 310000, since the
recomputed IQR is zero), so the stage is not idempotent. -/
theorem c2_iqr_not_idempotent :
    iqrStage (iqrStage exTen) ≠ iqrStage exTen ∧
      (iqrStage exTen).length = 9 ∧ (iqrStage (iqrStage exTen)).length = 7 := by
  decide

/-- Claim C3 counterexample: on the empty raw collection the core stops
with the no-listings outcome and produces no summary; on a collection
emptied by the sanity filter it reports NaN aggregates (none), which
are not the zero the claim states. -/
theorem c3_zero_counterexample :
    runCore "" "" "" [] = PipeResult.noListings ∧
      runCore "" "" "" [cardZ] = PipeResult.report [] (none, none, none) [] ∧
      (none : Option ℚ) ≠ some 0 := by
  decide

/-- Claim C3 witness: the amended statement applied to the empty input
and to a concrete run whose final collection is empty. -/
theorem c3_empty_behaviour_witness :
    runCore "" "" "" [] = PipeResult.noListings ∧
      ((none, none, none) : Option ℚ × Option ℚ × Option ℚ) = (none, none, none) :=
  ⟨c3_empty_behaviour.1 "" "" "",
    c3_empty_behaviour.2 "" "" "" [cardZ] [] (none, none, none) [] (by decide) rfl⟩

/-- Claim C4 counterexample: with an empty budget input the ceiling is
the finite constant 500000000, and a listing with the present price
600000000 is excluded, refuting the unlimited-ceiling reading. -/
theorem c4_unlimited_counterexample :
    parseIntPy "" = none ∧ priceCleanOf cardX.price = some 600000000 ∧
      budgetStage (maxPriceOf "") [cardX] = [] := by
  decide

/-- Claim C4 witness: the amended statement applied to the empty budget
input and a concrete affordable listing. -/
theorem c4_budget_default_witness :
    mkCard "200000" "a" ∈ budgetStage (maxPriceOf "") [mkCard "200000" "a"] ↔
      mkCard "200000" "a" ∈ [mkCard "200000" "a"] ∧
        ∃ p, priceCleanOf (mkCard "200000" "a").price = some p ∧ p ≤ 500000000 :=
  c4_budget_default "" (by decide) [mkCard "200000" "a"] (mkCard "200000" "a")

/-- Claim C6 witness: the sum invariant on the report of a concrete
one-listing run through the whole core. -/
theorem c6_sum_invariant_witness :
    rowW.invest = rowW.underval + ((rowW.liq, 0) : Pair) + (((3 * rowW.center : ℤ) : ℚ), 0) :=
  c6_sum_invariant "" "" "" [cardW] [rowW] (some 40000000, some 100, some 400000) [rowW]
    (by decide) (by decide) rowW (List.mem_singleton_self rowW)

/-- Claim C7 witness: the degenerate-collection statement applied to two
listings sharing the price-per-area value 200000, whose variance is a
present zero. -/
theorem c7_degenerate_witness :
    (fillRow (scoreRow (meanQ (exSame.map ppmOf)) (stdSq (exSame.map ppmOf))
      (maxQ (exSame.map ppmOf)) (mkCard "200000" "s1"))).underval = ((0, 0) : Pair) ∧
    (fillRow (scoreRow (meanQ (exSame.map ppmOf)) (stdSq (exSame.map ppmOf))
      (maxQ (exSame.map ppmOf)) (mkCard "200000" "s1"))).liq = 0 :=
  c7_degenerate exSame (Or.inr (Or.inl (by decide)))
    (scoreRow (meanQ (exSame.map ppmOf)) (stdSq (exSame.map ppmOf))
      (maxQ (exSame.map ppmOf)) (mkCard "200000" "s1"))
    (by decide)

/-- Claim C8 witness: the IQR stage leaves a concrete one-listing
collection unchanged. -/
theorem c8_iqr_small_witness :
    iqrStage [mkCard "200000" "a"] = [mkCard "200000" "a"] :=
  c8_iqr_small [mkCard "200000" "a"] (by decide) (by decide)

/-- Claim C9 counterexample: an unparsable rooms input reaches the
unguarded int conversion in the room filter and the core raises, so the
no-escaping-error claim fails as stated. -/
theorem c9_rooms_counterexample :
    runCore "abc" "" "" [cardY] = PipeResult.exn := by
  decide

/-- Claim C9 witness: the amended statement applied to empty user inputs
and the empty collection. -/
theorem c9_no_uncaught_witness : runCore "" "" "" [] ≠ PipeResult.exn :=
  c9_no_uncaught "" "" "" [] (by decide) (Or.inl rfl)

/-- Claim C10 witness: both parts applied to concrete collections. -/
theorem c10_sanity_liquidity_witness :
    (∃ q, ppmOf (mkCard "200000" "a") = some q ∧ 100000 < q) ∧
    (∃ M, maxQ (exSame.map ppmOf) = some M ∧ 0 < M ∧
      (∀ sr ∈ scoreStage exSame, sr.liq = (ppmOf sr.card).map fun x => (M - x) / M) ∧
      (∀ sr ∈ scoreStage exSame, ∀ q, sr.liq = some q → q < 1)) :=
  ⟨c10_sanity_liquidity.1 [mkCard "200000" "a"] (mkCard "200000" "a") (by decide),
    c10_sanity_liquidity.2 exSame (by decide)
      (by
        intro c hc
        rcases List.mem_cons.1 hc with rfl | hc2
        · exact ⟨200000, by decide, by decide⟩
        · rcases List.mem_cons.1 hc2 with rfl | hc3
          · exact ⟨200000, by decide, by decide⟩
          · cases hc3)⟩

end
